import Mathlib

/-!
Verification of the Auto-Doc-AI document-extraction core.

This file embeds, in Lean, the parts of the repository that the frozen
claims are about:

* `documents/tasks.py` — the Celery orchestrator `process_document_task`,
  `calculate_confidence`;
* `documents/services/openai_service.py` — `extract_universal_data`,
  `_merge_page_data`, `_extract_json`, `_get_fallback_data`;
* `documents/services/ai_service.py` — `_extract_json` (same algorithm);
* `documents/services/ocr_service.py` — the `extract_text` dispatch;
* `documents/models.py` / `utils/choices.py` — `ProcessingStatus` and the
  document file-format allow-list.

Python dictionaries holding JSON-ish data are modelled as association
lists of `JVal` values; external collaborators (the OpenAI client, the
Ollama client, Tesseract, the database clock) are oracles supplied as
explicit arguments, and Python exceptions are `Except String`.
-/

namespace AutoDocAI

/-- A Python/JSON value as it flows through the extraction pipeline:
None, bool, number, str, list, or dict (modelled as an association list,
insertion ordered, keys unique in all real payloads). Numbers are modelled
as integers; every number appearing in the claims is integral. -/
inductive JVal where
  | null : JVal
  | bool (b : Bool) : JVal
  | num (n : Int) : JVal
  | str (s : String) : JVal
  | list (xs : List JVal) : JVal
  | dict (fields : List (String × JVal)) : JVal

/-- A Python dict with string keys, as an association list. -/
abbrev Dict := List (String × JVal)

/-- `d[k]` / `d.get(k)`: the value stored at key `k` (first occurrence). -/
def getKey? : Dict → String → Option JVal
  | [], _ => none
  | (k', v) :: rest, k => if k' = k then some v else getKey? rest k

/-- `k in d`: key membership in a Python dict. -/
def containsKey (d : Dict) (k : String) : Bool :=
  (getKey? d k).isSome

/-- `d[k] = v`: replace the binding of `k` if present, else append it
(Python dicts keep first-insertion order for updated keys). -/
def setKey : Dict → String → JVal → Dict
  | [], k, v => [(k, v)]
  | (k', v') :: rest, k, v =>
      if k' = k then (k, v) :: rest else (k', v') :: setKey rest k v

/-- `d.update(other)`: set every binding of `other` in `d`, in order. -/
def updateDict (d other : Dict) : Dict :=
  other.foldl (fun acc p => setKey acc p.1 p.2) d

/-- Python truthiness of a `JVal` (`bool(value)`). -/
def truthy : JVal → Bool
  | .null => false
  | .bool b => b
  | .num n => n != 0
  | .str s => !s.isEmpty
  | .list xs => !xs.isEmpty
  | .dict d => !d.isEmpty

theorem getKey?_setKey_self (d : Dict) (k : String) (v : JVal) :
    getKey? (setKey d k v) k = some v := by
  induction d with
  | nil => simp [setKey, getKey?]
  | cons p rest ih =>
    by_cases h : p.1 = k
    · simp [setKey, h, getKey?]
    · simp [setKey, h, getKey?, ih]

theorem getKey?_setKey_ne (d : Dict) (k k' : String) (v : JVal)
    (h : k' ≠ k) : getKey? (setKey d k' v) k = getKey? d k := by
  induction d with
  | nil => simp [setKey, getKey?, h]
  | cons p rest ih =>
    obtain ⟨k₀, v₀⟩ := p
    by_cases hp : k₀ = k'
    · subst hp
      simp [setKey, getKey?, h]
    · by_cases hk : k₀ = k
      · subst hk
        simp [setKey, hp, getKey?, Ne.symm h]
      · simp [setKey, hp, getKey?, hk, ih]

theorem containsKey_of_getKey? {d : Dict} {k : String} {v : JVal}
    (h : getKey? d k = some v) : containsKey d k = true := by
  simp [containsKey, h]

/-! ## Confidence scorer — `documents/tasks.py`, `calculate_confidence` -/

/-- Python `key.startswith('_')` for the one-character pattern: the first
character is an underscore. -/
def startsWithUnderscore (k : String) : Bool :=
  match k.toList with
  | c :: _ => c == '_'
  | [] => false

/-- Keys skipped by the scorer:
`if key.startswith('_') or key in ['extraction_status', 'error']`. -/
def isInternalKey (k : String) : Bool :=
  startsWithUnderscore k || k == "extraction_status" || k == "error"

/-- The fields of `data` that the scorer iterates over without skipping. -/
def scorableFields (data : Dict) : Dict :=
  data.filter (fun p => !isInternalKey p.1)

/-- The sentinel comparisons `value != 'Unknown' and value != 'N/A'`;
only strings can compare equal to these literals in Python. -/
def isSentinel : JVal → Bool
  | .str s => s == "Unknown" || s == "N/A"
  | _ => false

/-- `calculate_confidence`'s filled-field test. The Python condition is
`value and value != 'Unknown' and value != 'N/A' and value != [] and
value is not None`; the `!= []` and `is not None` conjuncts are subsumed
by truthiness (empty lists and None are falsy). For nested dicts, filled
requires `any(v for v in value.values() if v)`. -/
def isFilled (v : JVal) : Bool :=
  if truthy v && !isSentinel v then
    match v with
    | .dict d => d.any (fun p => truthy p.2)
    | _ => true
  else false

/-- Python's `round(x)` for a real argument rounds half to even. Python
runs it on binary doubles, whose ties fall slightly differently; no claim
in this development depends on a tie case. -/
def roundHalfEven (q : ℚ) : ℤ :=
  let f := ⌊q⌋
  if q - f < 1/2 then f
  else if q - f > 1/2 then f + 1
  else if f % 2 = 0 then f else f + 1

/-- `round(confidence, 2)`. -/
def pyRound2 (q : ℚ) : ℚ := (roundHalfEven (q * 100) : ℚ) / 100

/-- `calculate_confidence(data, text)` from `documents/tasks.py`. The
`try`/`except` wrapper of the source cannot fire here: the body performs
no raising operation in this value model. -/
def calculate_confidence (data : Dict) (text : String) : ℚ :=
  let fields := scorableFields data
  let total_fields := fields.length
  let filled_fields := (fields.filter (fun p => isFilled p.2)).length
  if total_fields = 0 then 1/2
  else
    let base_confidence : ℚ := (filled_fields : ℚ) / (total_fields : ℚ)
    let confidence : ℚ :=
      if text.isEmpty then base_confidence * (95/100)
      else base_confidence * (7/10) + min ((text.length : ℚ) / 1000) 1 * (3/10)
    pyRound2 (max 0 (min 1 confidence))

theorem roundHalfEven_le {q : ℚ} {n : ℤ} (h : q ≤ (n : ℚ)) :
    roundHalfEven q ≤ n := by
  have hf : ⌊q⌋ ≤ n := by
    have h2 := Int.floor_le_floor h
    simpa using h2
  have hup : (⌊q⌋ : ℚ) + 1/2 ≤ q → ⌊q⌋ + 1 ≤ n := by
    intro hq
    have hx : (⌊q⌋ : ℚ) < (n : ℚ) := by linarith
    have hx2 : ⌊q⌋ < n := by exact_mod_cast hx
    omega
  simp only [roundHalfEven]
  split_ifs with h1 h2 h3
  · exact hf
  · exact hup (by linarith)
  · exact hf
  · exact hup (by linarith)

theorem le_roundHalfEven {q : ℚ} {n : ℤ} (h : (n : ℚ) ≤ q) :
    n ≤ roundHalfEven q := by
  have hf : n ≤ ⌊q⌋ := by
    have h2 := Int.floor_le_floor h
    simpa using h2
  simp only [roundHalfEven]
  split_ifs with h1 h2 h3
  · exact hf
  · omega
  · exact hf
  · omega

theorem pyRound2_bounds {q : ℚ} {a b : ℤ} (ha : (a : ℚ) ≤ q * 100)
    (hb : q * 100 ≤ (b : ℚ)) :
    ((a : ℚ) / 100 ≤ pyRound2 q ∧ pyRound2 q ≤ (b : ℚ) / 100) := by
  have hlo : a ≤ roundHalfEven (q * 100) := le_roundHalfEven ha
  have hhi : roundHalfEven (q * 100) ≤ b := roundHalfEven_le hb
  have hloq : (a : ℚ) ≤ (roundHalfEven (q * 100) : ℚ) := by exact_mod_cast hlo
  have hhiq : (roundHalfEven (q * 100) : ℚ) ≤ (b : ℚ) := by exact_mod_cast hhi
  unfold pyRound2
  constructor
  · linarith
  · linarith

theorem pyRound2_clamp_bounds (c : ℚ) :
    0 ≤ pyRound2 (max 0 (min 1 c)) ∧ pyRound2 (max 0 (min 1 c)) ≤ 1 := by
  have hm0 : (0 : ℚ) ≤ max 0 (min 1 c) := le_max_left 0 _
  have hm1 : max 0 (min 1 c) ≤ 1 := max_le (by norm_num) (min_le_left _ _)
  have hlo : ((0 : ℤ) : ℚ) ≤ max 0 (min 1 c) * 100 := by
    push_cast
    nlinarith
  have hhi : max 0 (min 1 c) * 100 ≤ ((100 : ℤ) : ℚ) := by
    push_cast
    nlinarith
  have hb := pyRound2_bounds hlo hhi
  constructor
  · have h1 := hb.1
    push_cast at h1
    linarith
  · have h1 := hb.2
    push_cast at h1
    linarith

/-- C3: for every input field map the scorer's overall confidence lies in
[0, 1], and whenever there are zero scorable fields (in particular for
the empty map) it is exactly 0.5. -/
theorem calculate_confidence_range (data : Dict) (text : String) :
    (0 ≤ calculate_confidence data text ∧ calculate_confidence data text ≤ 1)
      ∧ (scorableFields data = [] → calculate_confidence data text = 1/2) := by
  simp only [calculate_confidence]
  by_cases h0 : (scorableFields data).length = 0
  · rw [if_pos h0]
    exact ⟨⟨by norm_num, by norm_num⟩, fun _ => rfl⟩
  · rw [if_neg h0]
    refine ⟨pyRound2_clamp_bounds _, ?_⟩
    intro hnil
    exact absurd (by simp [hnil]) h0

/-- Witness for C3 at the empty field map, exercising the zero-scorable
hypothesis. -/
theorem calculate_confidence_range_witness :
    0 ≤ calculate_confidence [] "xy" ∧ calculate_confidence [] "xy" ≤ 1
      ∧ calculate_confidence [] "xy" = 1/2 :=
  ⟨(calculate_confidence_range [] "xy").1.1,
   (calculate_confidence_range [] "xy").1.2,
   (calculate_confidence_range [] "xy").2 rfl⟩

/-- The field map of the C4 scenario: both values are Python `None`. -/
def vendorTotalNullMap : Dict := [("vendor", JVal.null), ("total", JVal.null)]

/-- A short (100-character) non-trivial source text. -/
def shortText : String := String.mk (List.replicate 100 'a')

theorem pyRound2_clamp_le_of_le {c : ℚ} (hc : c ≤ 3/10) :
    pyRound2 (max 0 (min 1 c)) ≤ 3/10 := by
  have hm0 : (0 : ℚ) ≤ max 0 (min 1 c) := le_max_left 0 _
  have hm1 : max 0 (min 1 c) ≤ 3/10 := by
    apply max_le (by norm_num)
    calc min 1 c ≤ c := min_le_right _ _
    _ ≤ 3/10 := hc
  have hlo : ((0 : ℤ) : ℚ) ≤ max 0 (min 1 c) * 100 := by
    push_cast
    nlinarith
  have hhi : max 0 (min 1 c) * 100 ≤ ((30 : ℤ) : ℚ) := by
    push_cast
    nlinarith
  have hb := pyRound2_bounds hlo hhi
  have h1 := hb.2
  push_cast at h1
  linarith

/-- C4 counterexample: on the field map with `vendor` and `total` both
`None` and a short (100-character) source text, the scorer returns 0.03,
which is not strictly between 0.3 and 0.8 as the claim asserts. -/
theorem confidence_vendor_total_short_text_outside_claimed_range :
    ¬(3/10 < calculate_confidence vendorTotalNullMap shortText
        ∧ calculate_confidence vendorTotalNullMap shortText < 8/10) := by
  have h : calculate_confidence vendorTotalNullMap shortText = 3/100 := by
    have h1 : scorableFields vendorTotalNullMap = vendorTotalNullMap := rfl
    have h2 : (vendorTotalNullMap.filter (fun p => isFilled p.2)).length = 0 :=
      rfl
    have h3 : shortText.length = 100 := rfl
    have h4 : vendorTotalNullMap.length = 2 := rfl
    have h5 : shortText.isEmpty = false := rfl
    simp only [calculate_confidence, h1, h2, h3, h4, h5]
    norm_num [pyRound2, roundHalfEven]
  rw [h]
  norm_num

/-- C4 amended: for the field map with `vendor` and `total` both `None`,
the overall confidence never exceeds 0.3 for any source text — with both
fields unfilled the completeness term is 0 and only the text-length term
(weight 0.3) remains — so it can never lie strictly between 0.3 and 0.8. -/
theorem confidence_vendor_total_le_three_tenths (text : String) :
    calculate_confidence vendorTotalNullMap text ≤ 3/10 := by
  have h1 : scorableFields vendorTotalNullMap = vendorTotalNullMap := rfl
  have h2 : (vendorTotalNullMap.filter (fun p => isFilled p.2)).length = 0 :=
    rfl
  have h4 : vendorTotalNullMap.length = 2 := rfl
  simp only [calculate_confidence, h1, h2, h4]
  norm_num
  apply pyRound2_clamp_le_of_le
  by_cases he : text.isEmpty
  · rw [if_pos he]
    norm_num
  · rw [if_neg he]
    have hm : min ((text.length : ℚ) / 1000) 1 ≤ 1 := min_le_right _ _
    have hm0 : (0 : ℚ) ≤ min ((text.length : ℚ) / 1000) 1 := by
      apply le_min
      · positivity
      · norm_num
    nlinarith

/-! ## Orchestrator — `documents/tasks.py`, `process_document_task` -/

/-- `ProcessingStatus` from `utils/choices.py`. -/
inductive ProcessingStatus where
  | pending
  | processing
  | completed
  | failed
deriving DecidableEq

/-- The `ExtractionJob` fields that `process_document_task` mutates
(`documents/models.py`). -/
structure JobState where
  status : ProcessingStatus
  retryCount : Nat
  errorMessage : Option String
deriving DecidableEq

/-- The dictionary returned by `OCRService.extract_text`. -/
structure OcrResult where
  text : String
  pages : Nat
  method : String

/-- One execution attempt's view of the collaborators the task calls:
the OpenAI setting and service outcome, the OCR service outcome, the
Ollama extractor's result (total — `AIExtractionService.extract_data`
catches its own engine errors and returns a fallback dict), and the
document/settings strings the task copies into metadata. A raised Python
exception is `Except.error` with its message. -/
structure AttemptOracle where
  useOpenai : Bool
  primary : Except String Dict
  ocr : Except String OcrResult
  aiData : Dict
  documentType : String
  fileFormat : String
  openaiModel : String
  nowIso : String

/-- tasks.py line 109: `structured_data.get('extraction_status') != 'failed'`
is False exactly when the stored value is the string "failed"; a missing
key or any non-string value compares unequal. -/
def hasFailedMarker (d : Dict) : Bool :=
  match getKey? d "extraction_status" with
  | some (.str s) => s == "failed"
  | _ => false

/-- tasks.py lines 112-125: ensure `_metadata` exists, then `.update(...)`
it with the processing metadata. If the primary result carries a non-dict
`_metadata`, the `.update` attribute access raises; the surrounding
`except` then falls through to the local path, modelled as `Except.error`. -/
def addPrimaryMetadata (o : AttemptOracle) (sd : Dict) : Except String Dict :=
  let sd := if containsKey sd "_metadata" then sd else setKey sd "_metadata" (.dict [])
  match getKey? sd "_metadata" with
  | some (.dict md) =>
    let detected := match getKey? sd "document_type" with
      | some v => v
      | none => .str "unknown"
    .ok (setKey sd "_metadata" (.dict (updateDict md
      [("extraction_method", .str "openai_vision_universal"),
       ("model", .str o.openaiModel),
       ("document_type_hint", .str o.documentType),
       ("detected_type", detected),
       ("file_format", .str o.fileFormat),
       ("processing_timestamp", .str o.nowIso),
       ("processor", .str "openai_gpt4_vision")])))
  | _ => .error "AttributeError"

/-- tasks.py lines 81-152, the OpenAI-primary branch: `some (data,
confidence)` when `extraction_successful` becomes True, `none` when the
branch is skipped, raises, or sees the explicit failure marker (all of
which fall through to the local OCR+Ollama path). -/
def primarySuccess (o : AttemptOracle) : Option (Dict × ℚ) :=
  if o.useOpenai then
    match o.primary with
    | .ok sd =>
      if hasFailedMarker sd then none
      else
        match addPrimaryMetadata o sd with
        | .ok sd2 => some (sd2, calculate_confidence sd2 "")
        | .error _ => none
    | .error _ => none
  else none

/-- The message of the ValueError raised at tasks.py line 185. -/
def insufficientTextMsg : String :=
  "Insufficient text extracted from document (less than 10 characters)"

/-- The fallback `_metadata` dict (tasks.py lines 192-201). -/
def fallbackMetadata (o : AttemptOracle) (r : OcrResult) : Dict :=
  [("ocr_method", .str r.method),
   ("pages", .num r.pages),
   ("text_length", .num r.text.length),
   ("document_type", .str o.documentType),
   ("extraction_method", .str "ocr+ollama"),
   ("file_format", .str o.fileFormat),
   ("processing_timestamp", .str o.nowIso),
   ("processor", .str "tesseract+ollama")]

/-- Outcome of one attempt's extraction phase. -/
inductive AttemptResult where
  | success (data : Dict) (confidence : ℚ) (method : String)
  | failure (errMsg : String)

/-- tasks.py lines 75-217: primary strategy, then the local OCR+Ollama
path. The guard `not extracted_text or len(extracted_text) < 10` is
equivalent to `len < 10` since the empty string has length 0. -/
def runAttempt (o : AttemptOracle) : AttemptResult :=
  match primarySuccess o with
  | some (d, c) => .success d c "openai_vision_universal"
  | none =>
    match o.ocr with
    | .error e => .failure e
    | .ok r =>
      if r.text.length < 10 then .failure insufficientTextMsg
      else
        let sd := setKey o.aiData "_metadata" (.dict (fallbackMetadata o r))
        .success sd (calculate_confidence sd r.text) "ocr+ollama"

/-- The persisted `ExtractedData` row fields (`documents/models.py`). -/
structure ExtractedRow where
  data : Dict
  overallConfidence : ℚ
  extractionMethod : String

/-- `@shared_task(bind=True, max_retries=3)`. -/
def maxRetries : Nat := 3

/-- Effects of one execution of the task: the job row afterwards, the
`ExtractedData` row created on success, and the countdown of the Celery
retry scheduled on failure (`None` when no retry is raised). -/
structure TaskResult where
  job : JobState
  extracted : Option ExtractedRow
  scheduledRetryDelay : Option Nat

/-- One full execution of `process_document_task` on an existing job,
with `retries` the value of `self.request.retries` for this invocation:
status is set to PROCESSING, the attempt runs, and on success the job
completes while on failure it is marked FAILED with `retry_count += 1`
and a retry with countdown `60 * (self.request.retries + 1)` is raised
while `self.request.retries < self.max_retries`. -/
def process_document_task (o : AttemptOracle) (retries : Nat) (j : JobState) : TaskResult :=
  let j1 : JobState := { j with status := .processing }
  match runAttempt o with
  | .success d c m =>
    { job := { j1 with status := .completed },
      extracted := some ⟨d, c, m⟩,
      scheduledRetryDelay := none }
  | .failure e =>
    let j2 : JobState :=
      { j1 with status := .failed, errorMessage := some e,
                retryCount := j1.retryCount + 1 }
    if retries < maxRetries then
      { job := j2, extracted := none,
        scheduledRetryDelay := some (60 * (retries + 1)) }
    else
      { job := j2, extracted := none, scheduledRetryDelay := none }

/-- A job as created by the API layer: PENDING, retry_count 0. -/
def initialJob : JobState :=
  { status := .pending, retryCount := 0, errorMessage := none }

/-- Drive the task through Celery's automatic retry chain: attempt `k`
runs with `self.request.retries = k - 1` and uses the `k`-th oracle; the
chain continues exactly while a retry is scheduled. Returns the final
job row and the list of scheduled retry countdowns. -/
def runAttempts : JobState → Nat → List AttemptOracle → JobState × List Nat
  | j, _, [] => (j, [])
  | j, retries, o :: rest =>
    let r := process_document_task o retries j
    match r.scheduledRetryDelay with
    | none => (r.job, [])
    | some d =>
      let p := runAttempts r.job (retries + 1) rest
      (p.1, d :: p.2)

/-- The successive `status` values written to the job row over a retry
chain: each attempt writes PROCESSING and then its terminal status. -/
def runTrace : JobState → Nat → List AttemptOracle → List ProcessingStatus
  | _, _, [] => []
  | j, retries, o :: rest =>
    let r := process_document_task o retries j
    match r.scheduledRetryDelay with
    | none => [ProcessingStatus.processing, r.job.status]
    | some _ =>
      ProcessingStatus.processing :: r.job.status :: runTrace r.job (retries + 1) rest

/-- An attempt in which every strategy fails: OpenAI disabled and the
OCR service raises. -/
def failingOracle : AttemptOracle :=
  { useOpenai := false
    primary := Except.error "unused"
    ocr := Except.error "TesseractNotFoundError: tesseract is not installed"
    aiData := []
    documentType := "invoice"
    fileFormat := "pdf"
    openaiModel := "gpt-4o-mini"
    nowIso := "2026-10-12T00:00:00" }

/-- C1 counterexample: when every attempt fails, the retry chain runs the
initial attempt plus three retries, each of which increments the job's
`retry_count`, so the permanently FAILED job ends with `retry_count = 4`,
not 3 as the claim states. -/
theorem retry_exhaustion_retry_count_ne_three :
    (runAttempts initialJob 0 (List.replicate 4 failingOracle)).1.retryCount = 4
      ∧ (runAttempts initialJob 0 (List.replicate 4 failingOracle)).1.status
          = ProcessingStatus.failed
      ∧ ¬(runAttempts initialJob 0 (List.replicate 4 failingOracle)).1.retryCount = 3 := by
  refine ⟨?_, ?_, ?_⟩ <;> decide

/-- C1 amended: when the task fails on every attempt, Celery re-invokes
it exactly while `self.request.retries < 3`, with countdowns 60, 120 and
180 seconds (60 × the job's just-incremented retry_count); after the
fourth failing attempt no further retry is scheduled and the job is left
FAILED with `retry_count = 4` (the task's returned error dict reports
Celery's retries counter, 3). -/
theorem retry_exhaustion_final_state
    (o₁ o₂ o₃ o₄ : AttemptOracle) (e₁ e₂ e₃ e₄ : String)
    (h₁ : runAttempt o₁ = .failure e₁) (h₂ : runAttempt o₂ = .failure e₂)
    (h₃ : runAttempt o₃ = .failure e₃) (h₄ : runAttempt o₄ = .failure e₄) :
    runAttempts initialJob 0 [o₁, o₂, o₃, o₄]
      = ({ status := .failed, retryCount := 4, errorMessage := some e₄ },
         [60, 120, 180]) := by
  simp [runAttempts, process_document_task, h₁, h₂, h₃, h₄, maxRetries,
    initialJob]

/-- Witness for C1's amended theorem on the concrete all-failing run. -/
theorem retry_exhaustion_final_state_witness :
    runAttempts initialJob 0
        [failingOracle, failingOracle, failingOracle, failingOracle]
      = ({ status := .failed, retryCount := 4,
           errorMessage := some "TesseractNotFoundError: tesseract is not installed" },
         [60, 120, 180]) :=
  retry_exhaustion_final_state failingOracle failingOracle failingOracle
    failingOracle _ _ _ _ rfl rfl rfl rfl

/-- The transition relation asserted by claim C2: strictly forward along
PENDING → PROCESSING → COMPLETED/FAILED, both terminal states absorbing. -/
def claimForwardStep : ProcessingStatus → ProcessingStatus → Bool
  | .pending, .processing => true
  | .processing, .completed => true
  | .processing, .failed => true
  | _, _ => false

/-- What the code actually guarantees for adjacent status writes: a
claimed-forward step, or the Celery-retry re-entry that moves a FAILED
job back to PROCESSING. -/
def observedStep (a b : ProcessingStatus) : Bool :=
  claimForwardStep a b || (a == ProcessingStatus.failed && b == ProcessingStatus.processing)

/-- Every adjacent pair of the list satisfies `R`. -/
def chainOk (R : ProcessingStatus → ProcessingStatus → Bool) :
    List ProcessingStatus → Bool
  | [] => true
  | [_] => true
  | a :: b :: rest => R a b && chainOk R (b :: rest)

/-- C2 counterexample: a job whose first attempt fails is re-entered by
the scheduled Celery retry, which writes PROCESSING over FAILED — so the
claimed forward-only/absorbing relation is violated by an actual status
trace of the orchestrator. -/
theorem failed_job_reenters_processing :
    runTrace initialJob 0 [failingOracle, failingOracle]
        = [ProcessingStatus.processing, ProcessingStatus.failed,
           ProcessingStatus.processing, ProcessingStatus.failed]
      ∧ chainOk claimForwardStep
          (ProcessingStatus.pending :: runTrace initialJob 0 [failingOracle, failingOracle])
          = false := by
  refine ⟨?_, ?_⟩ <;> decide

theorem chainOk_observed_aux :
    ∀ (os : List AttemptOracle) (s : ProcessingStatus),
      observedStep s ProcessingStatus.processing = true →
      ∀ (j : JobState) (r : Nat),
        chainOk observedStep (s :: runTrace j r os) = true := by
  intro os
  induction os with
  | nil =>
    intro s hs j r
    rfl
  | cons o rest ih =>
    intro s hs j r
    cases hA : runAttempt o with
    | success d c m =>
      simp only [runTrace, process_document_task, hA, chainOk,
        Bool.and_eq_true]
      exact ⟨hs, by decide⟩
    | failure e =>
      by_cases hr : r < maxRetries
      · simp only [runTrace, process_document_task, hA, if_pos hr, chainOk,
          Bool.and_eq_true]
        exact ⟨hs, by decide, ih ProcessingStatus.failed (by decide) _ _⟩
      · simp only [runTrace, process_document_task, hA, if_neg hr, chainOk,
          Bool.and_eq_true]
        exact ⟨hs, by decide⟩

/-- C2 amended: over every retry chain, each adjacent pair of status
writes is either a forward step of the claimed state machine
(PENDING → PROCESSING → COMPLETED/FAILED, COMPLETED absorbing) or the
one backward step the code performs: the automatic Celery retry
re-entering a FAILED job and setting it back to PROCESSING. -/
theorem run_trace_forward_or_retry_reentry (os : List AttemptOracle) :
    chainOk observedStep
      (ProcessingStatus.pending :: runTrace initialJob 0 os) = true :=
  chainOk_observed_aux os ProcessingStatus.pending rfl initialJob 0

/-- C5: if the primary vision engine raises and the OCR+Ollama fallback
succeeds (OCR yields at least 10 characters), the job completes and the
persisted ExtractedData row's method tag is the fallback's
"ocr+ollama", never the primary's "openai_vision_universal". -/
theorem fallback_success_completes_with_ocr_ollama_tag
    (o : AttemptOracle) (e : String) (r : OcrResult) (retries : Nat)
    (j : JobState)
    (huse : o.useOpenai = true) (hprim : o.primary = Except.error e)
    (hocr : o.ocr = Except.ok r) (hlen : 10 ≤ r.text.length) :
    (process_document_task o retries j).job.status = ProcessingStatus.completed
      ∧ ∃ row, (process_document_task o retries j).extracted = some row
          ∧ row.extractionMethod = "ocr+ollama"
          ∧ row.extractionMethod ≠ "openai_vision_universal" := by
  have hps : primarySuccess o = none := by
    simp [primarySuccess, huse, hprim]
  have hA : runAttempt o
      = .success (setKey o.aiData "_metadata" (.dict (fallbackMetadata o r)))
          (calculate_confidence
            (setKey o.aiData "_metadata" (.dict (fallbackMetadata o r))) r.text)
          "ocr+ollama" := by
    simp only [runAttempt, hps, hocr]
    rw [if_neg (by omega : ¬ r.text.length < 10)]
  refine ⟨by simp [process_document_task, hA],
    ⟨setKey o.aiData "_metadata" (.dict (fallbackMetadata o r)),
      calculate_confidence
        (setKey o.aiData "_metadata" (.dict (fallbackMetadata o r))) r.text,
      "ocr+ollama"⟩,
    by simp [process_document_task, hA], rfl,
    by show "ocr+ollama" ≠ "openai_vision_universal"; decide⟩

/-- An attempt in which the primary raises `ConnectionError` and the
fallback succeeds with 13 characters of OCR text. -/
def connectionErrorOracle : AttemptOracle :=
  { useOpenai := true
    primary := Except.error "ConnectionError: vision endpoint unreachable"
    ocr := Except.ok { text := "0123456789abc", pages := 1, method := "ocr" }
    aiData := [("store_name", JVal.str "ACME"), ("total", JVal.num 120)]
    documentType := "receipt"
    fileFormat := "jpg"
    openaiModel := "gpt-4o-mini"
    nowIso := "2026-10-12T00:00:00" }

/-- Witness for C5 on the concrete ConnectionError scenario. -/
theorem fallback_success_completes_with_ocr_ollama_tag_witness :
    (process_document_task connectionErrorOracle 0 initialJob).job.status
        = ProcessingStatus.completed
      ∧ ∃ row, (process_document_task connectionErrorOracle 0 initialJob).extracted
            = some row
          ∧ row.extractionMethod = "ocr+ollama"
          ∧ row.extractionMethod ≠ "openai_vision_universal" :=
  fallback_success_completes_with_ocr_ollama_tag connectionErrorOracle
    "ConnectionError: vision endpoint unreachable"
    { text := "0123456789abc", pages := 1, method := "ocr" } 0 initialJob
    rfl rfl rfl (by decide)

/-- C8: on the fallback path (the primary strategy did not succeed), if
OCR yields fewer than 10 characters the job is marked FAILED with the
insufficient-text error message and no ExtractedData row is created. -/
theorem short_ocr_text_fails_job
    (o : AttemptOracle) (r : OcrResult) (retries : Nat) (j : JobState)
    (hprim : primarySuccess o = none) (hocr : o.ocr = Except.ok r)
    (hlen : r.text.length < 10) :
    (process_document_task o retries j).job.status = ProcessingStatus.failed
      ∧ (process_document_task o retries j).job.errorMessage
          = some insufficientTextMsg
      ∧ (process_document_task o retries j).extracted = none := by
  have hA : runAttempt o = .failure insufficientTextMsg := by
    simp only [runAttempt, hprim, hocr]
    rw [if_pos hlen]
  by_cases hr : retries < maxRetries <;>
    simp [process_document_task, hA, hr]

/-- An attempt in which OpenAI is disabled and OCR returns only 4
characters of text. -/
def shortTextOracle : AttemptOracle :=
  { useOpenai := false
    primary := Except.error "unused"
    ocr := Except.ok { text := "a b", pages := 1, method := "ocr" }
    aiData := []
    documentType := "invoice"
    fileFormat := "png"
    openaiModel := "gpt-4o-mini"
    nowIso := "2026-10-12T00:00:00" }

/-- Witness for C8 on the concrete short-OCR-text scenario. -/
theorem short_ocr_text_fails_job_witness :
    (process_document_task shortTextOracle 0 initialJob).job.status
        = ProcessingStatus.failed
      ∧ (process_document_task shortTextOracle 0 initialJob).job.errorMessage
          = some insufficientTextMsg
      ∧ (process_document_task shortTextOracle 0 initialJob).extracted = none :=
  short_ocr_text_fails_job shortTextOracle
    { text := "a b", pages := 1, method := "ocr" } 0 initialJob rfl rfl
    (by decide)

/-! ## OpenAI universal extraction — `documents/services/openai_service.py` -/

/-- `OpenAIExtractionService._get_fallback_data(error_message)`;
`modelName` is the service's `self.model`. -/
def get_fallback_data (modelName errorMessage : String) : Dict :=
  [("document_type", .str "unknown"),
   ("extraction_status", .str "failed"),
   ("error", .str errorMessage),
   ("extracted_fields", .dict []),
   ("metadata", .dict
     [("extraction_method", .str "openai_vision"),
      ("model", .str modelName),
      ("status", .str "failed")])]

/-- `pat` is a leading segment of `s` (character lists). -/
def leadsWith : List Char → List Char → Bool
  | [], _ => true
  | _ :: _, [] => false
  | a :: as, b :: bs => a == b && leadsWith as bs

/-- `needle in hay` for character lists: some tail of `hay` starts with
`needle`. -/
def charSubstring (needle : List Char) : List Char → Bool
  | [] => needle.isEmpty
  | c :: rest => leadsWith needle (c :: rest) || charSubstring needle rest

/-- Python `needle in container`: key membership for dicts, element
equality for lists, substring test for strings; a TypeError for
non-container values. -/
def pyContains (needle : String) : JVal → Except String Bool
  | .dict d => .ok (containsKey d needle)
  | .list xs => .ok (xs.any fun v =>
      match v with
      | .str s => s == needle
      | _ => false)
  | .str s => .ok (charSubstring needle.toList s.toList)
  | _ => .error "TypeError: argument is not iterable"

/-- Subscripting or `.update`/`.extend` access that Python only allows on
a dict; anything else raises (TypeError / AttributeError). -/
def asDict : JVal → Except String Dict
  | .dict d => .ok d
  | _ => .error "TypeError: not a dict"

/-- Access that Python only allows on a list. -/
def asList : JVal → Except String (List JVal)
  | .list xs => .ok xs
  | _ => .error "TypeError: not a list"

/-- String concatenation operand: non-strings raise TypeError. -/
def asStr : JVal → Except String String
  | .str s => .ok s
  | _ => .error "TypeError: not a str"

/-- `_merge_page_data`'s line-item block. Python's `.extend` mutates the
shared inner list; in this value model the merged dict is rebuilt with
the concatenated list, which is the same resulting value. -/
def mergeLineItems (merged page : Dict) : Except String Dict := do
  let cond ← match getKey? page "financial_data" with
    | none => pure false
    | some fd => pyContains "line_items" fd
  if cond then
    let merged := if containsKey merged "financial_data" then merged
      else setKey merged "financial_data" (.dict [])
    let mfdVal := (getKey? merged "financial_data").getD .null
    let hasLI ← pyContains "line_items" mfdVal
    let merged ← do
      if !hasLI then
        let mfd ← asDict mfdVal
        pure (setKey merged "financial_data"
          (.dict (setKey mfd "line_items" (.list []))))
      else
        pure merged
    let mfd ← asDict ((getKey? merged "financial_data").getD .null)
    let mli ← asList ((getKey? mfd "line_items").getD .null)
    let pfdD ← asDict ((getKey? page "financial_data").getD .null)
    let pli ← asList ((getKey? pfdD "line_items").getD .null)
    pure (setKey merged "financial_data"
      (.dict (setKey mfd "line_items" (.list (mli ++ pli)))))
  else
    pure merged

/-- `_merge_page_data`'s extracted-fields block (`dict.update`; the
envelope schema always carries dicts here). -/
def mergeExtractedFields (merged page : Dict) : Except String Dict := do
  match getKey? page "extracted_fields" with
  | none => pure merged
  | some pef =>
    let merged := if containsKey merged "extracted_fields" then merged
      else setKey merged "extracted_fields" (.dict [])
    let mef ← asDict ((getKey? merged "extracted_fields").getD .null)
    let pefD ← asDict pef
    pure (setKey merged "extracted_fields" (.dict (updateDict mef pefD)))

/-- `_merge_page_data`'s text-content block:
`merged['text_content'] += "\n\n" + page_data['text_content']`, run only
when the page's value is truthy. -/
def mergeTextContent (merged page : Dict) : Except String Dict := do
  match getKey? page "text_content" with
  | none => pure merged
  | some ptc =>
    if truthy ptc then
      let merged := if containsKey merged "text_content" then merged
        else setKey merged "text_content" (.str "")
      let mtc ← asStr ((getKey? merged "text_content").getD .null)
      let ptcS ← asStr ptc
      pure (setKey merged "text_content" (.str (mtc ++ "\n\n" ++ ptcS)))
    else
      pure merged

/-- `_merge_page_data`'s final metadata update:
`if 'metadata' in merged: merged['metadata']['total_pages'] = n`. -/
def setTotalPages (merged : Dict) (n : Nat) : Except String Dict := do
  match getKey? merged "metadata" with
  | none => pure merged
  | some mv =>
    let md ← asDict mv
    pure (setKey merged "metadata" (.dict (setKey md "total_pages" (.num n))))

/-- `OpenAIExtractionService._merge_page_data`: empty input yields the
fallback dict, a single page is returned unchanged, and otherwise the
first page seeds a left-to-right merge whose try/except returns the
first page if any step raises. -/
def merge_page_data (modelName : String) (pages : List Dict) : Dict :=
  match pages with
  | [] => get_fallback_data modelName "No data extracted"
  | [p] => p
  | p :: rest =>
    let body : Except String Dict :=
      (rest.foldlM (fun m pg => do
        let m ← mergeLineItems m pg
        let m ← mergeExtractedFields m pg
        mergeTextContent m pg) p).bind
        (fun m => setTotalPages m (rest.length + 1))
    match body with
    | .ok d => d
    | .error _ => p

/-- The key `k` of `d` is absent or holds a dict. -/
def keyIsDictOrAbsent (d : Dict) (k : String) : Bool :=
  match getKey? d k with
  | some (.dict _) => true
  | none => true
  | some _ => false

/-- The key `k` of `d` is absent or holds a string. -/
def keyIsStrOrAbsent (d : Dict) (k : String) : Bool :=
  match getKey? d k with
  | some (.str _) => true
  | none => true
  | some _ => false

/-- A page result shaped like the universal-extraction envelope where
the merge's non-line-item blocks touch it: `extracted_fields` and
`metadata` are dicts when present, `text_content` a string when present. -/
def wfMergePage (p : Dict) : Bool :=
  keyIsDictOrAbsent p "extracted_fields"
    && keyIsStrOrAbsent p "text_content"
    && keyIsDictOrAbsent p "metadata"

theorem exceptPureOk {α : Type} (a : α) :
    (pure a : Except String α) = Except.ok a := rfl

theorem exceptBindOk {α β : Type} (a : α) (f : α → Except String β) :
    (Except.ok a >>= f : Except String β) = f a := rfl

theorem exceptDoOk {α β : Type} (a : α) (f : α → Except String β) :
    (do let x ← Except.ok a; f x : Except String β) = f a := rfl

theorem exceptBindFn {α β : Type} (a : α) (f : α → Except String β) :
    (Except.ok a).bind f = f a := rfl

theorem dictOfKeyIsDict {d : Dict} {k : String} {v : JVal}
    (h : keyIsDictOrAbsent d k = true) (hv : getKey? d k = some v) :
    ∃ x, v = JVal.dict x := by
  unfold keyIsDictOrAbsent at h
  rw [hv] at h
  cases v with
  | dict x => exact ⟨x, rfl⟩
  | null => simp at h
  | bool b => simp at h
  | num n => simp at h
  | str s => simp at h
  | list xs => simp at h

theorem strOfKeyIsStr {d : Dict} {k : String} {v : JVal}
    (h : keyIsStrOrAbsent d k = true) (hv : getKey? d k = some v) :
    ∃ x, v = JVal.str x := by
  unfold keyIsStrOrAbsent at h
  rw [hv] at h
  cases v with
  | str x => exact ⟨x, rfl⟩
  | null => simp at h
  | bool b => simp at h
  | num n => simp at h
  | dict y => simp at h
  | list xs => simp at h

theorem mergeExtractedFields_ok {m p : Dict}
    (hm : keyIsDictOrAbsent m "extracted_fields" = true)
    (hp : keyIsDictOrAbsent p "extracted_fields" = true) :
    ∃ m', mergeExtractedFields m p = .ok m'
      ∧ ∀ k, k ≠ "extracted_fields" → getKey? m' k = getKey? m k := by
  cases hpe : getKey? p "extracted_fields" with
  | none =>
    refine ⟨m, ?_, fun k _ => rfl⟩
    simp [mergeExtractedFields, hpe, exceptPureOk]
  | some pef =>
    obtain ⟨d2, rfl⟩ := dictOfKeyIsDict hp hpe
    cases hme : getKey? m "extracted_fields" with
    | none =>
      have hck : containsKey m "extracted_fields" = false := by
        simp [containsKey, hme]
      refine ⟨setKey (setKey m "extracted_fields" (.dict []))
          "extracted_fields" (.dict (updateDict [] d2)), ?_, ?_⟩
      · simp [mergeExtractedFields, hpe, hck, getKey?_setKey_self, asDict,
          exceptPureOk, exceptDoOk]
      · intro k hk
        rw [getKey?_setKey_ne _ _ _ _ (Ne.symm hk),
          getKey?_setKey_ne _ _ _ _ (Ne.symm hk)]
    | some mev =>
      obtain ⟨md, rfl⟩ := dictOfKeyIsDict hm hme
      have hck : containsKey m "extracted_fields" = true := by
        simp [containsKey, hme]
      refine ⟨setKey m "extracted_fields" (.dict (updateDict md d2)), ?_, ?_⟩
      · simp [mergeExtractedFields, hpe, hck, hme, asDict, exceptPureOk,
          exceptDoOk]
      · intro k hk
        exact getKey?_setKey_ne _ _ _ _ (Ne.symm hk)

theorem mergeTextContent_ok {m p : Dict}
    (hm : keyIsStrOrAbsent m "text_content" = true)
    (hp : keyIsStrOrAbsent p "text_content" = true) :
    ∃ m', mergeTextContent m p = .ok m'
      ∧ ∀ k, k ≠ "text_content" → getKey? m' k = getKey? m k := by
  cases hpe : getKey? p "text_content" with
  | none =>
    refine ⟨m, ?_, fun k _ => rfl⟩
    simp [mergeTextContent, hpe, exceptPureOk]
  | some ptc =>
    obtain ⟨s2, rfl⟩ := strOfKeyIsStr hp hpe
    cases hs : truthy (JVal.str s2) with
    | false =>
      refine ⟨m, ?_, fun k _ => rfl⟩
      simp [mergeTextContent, hpe, hs, exceptPureOk]
    | true =>
      cases hme : getKey? m "text_content" with
      | none =>
        have hck : containsKey m "text_content" = false := by
          simp [containsKey, hme]
        refine ⟨setKey (setKey m "text_content" (.str ""))
            "text_content" (.str ("" ++ "\n\n" ++ s2)), ?_, ?_⟩
        · simp [mergeTextContent, hpe, hs, hck, getKey?_setKey_self, asStr,
          exceptPureOk, exceptDoOk]
        · intro k hk
          rw [getKey?_setKey_ne _ _ _ _ (Ne.symm hk),
            getKey?_setKey_ne _ _ _ _ (Ne.symm hk)]
      | some mtv =>
        obtain ⟨t, rfl⟩ := strOfKeyIsStr hm hme
        have hck : containsKey m "text_content" = true := by
          simp [containsKey, hme]
        refine ⟨setKey m "text_content" (.str (t ++ "\n\n" ++ s2)), ?_, ?_⟩
        · simp [mergeTextContent, hpe, hs, hck, hme, asStr, exceptPureOk,
          exceptDoOk]
        · intro k hk
          exact getKey?_setKey_ne _ _ _ _ (Ne.symm hk)

theorem setTotalPages_ok {m : Dict} (n : Nat)
    (hm : keyIsDictOrAbsent m "metadata" = true) :
    ∃ m', setTotalPages m n = .ok m'
      ∧ ∀ k, k ≠ "metadata" → getKey? m' k = getKey? m k := by
  cases hme : getKey? m "metadata" with
  | none =>
    refine ⟨m, ?_, fun k _ => rfl⟩
    simp [setTotalPages, hme, exceptPureOk]
  | some mv =>
    obtain ⟨md, rfl⟩ := dictOfKeyIsDict hm hme
    refine ⟨setKey m "metadata" (.dict (setKey md "total_pages" (.num n))),
      ?_, ?_⟩
    · simp [setTotalPages, hme, asDict, exceptPureOk, exceptDoOk]
    · intro k hk
      exact getKey?_setKey_ne _ _ _ _ (Ne.symm hk)

/-- C6: merging two page results that both carry
`financial_data.line_items` arrays concatenates the arrays without loss:
the merged list is `l1 ++ l2` (first page's items first, no
deduplication), so its length is the sum of the two lengths. The pages
are assumed shaped like the envelope schema (`wfMergePage`). -/
theorem merge_two_pages_concatenates_line_items
    (modelName : String) (p1 p2 f1 f2 : Dict) (l1 l2 : List JVal)
    (h1 : getKey? p1 "financial_data" = some (.dict f1))
    (h2 : getKey? f1 "line_items" = some (.list l1))
    (h3 : getKey? p2 "financial_data" = some (.dict f2))
    (h4 : getKey? f2 "line_items" = some (.list l2))
    (hw1 : wfMergePage p1 = true) (hw2 : wfMergePage p2 = true) :
    ∃ f', getKey? (merge_page_data modelName [p1, p2]) "financial_data"
            = some (.dict f')
        ∧ getKey? f' "line_items" = some (.list (l1 ++ l2))
        ∧ (l1 ++ l2).length = l1.length + l2.length := by
  obtain ⟨hw1ef, hw1tc, hw1md⟩ :
      keyIsDictOrAbsent p1 "extracted_fields" = true
        ∧ keyIsStrOrAbsent p1 "text_content" = true
        ∧ keyIsDictOrAbsent p1 "metadata" = true := by
    have hx := hw1
    unfold wfMergePage at hx
    simp only [Bool.and_eq_true] at hx
    exact ⟨hx.1.1, hx.1.2, hx.2⟩
  obtain ⟨hw2ef, hw2tc, _⟩ :
      keyIsDictOrAbsent p2 "extracted_fields" = true
        ∧ keyIsStrOrAbsent p2 "text_content" = true
        ∧ keyIsDictOrAbsent p2 "metadata" = true := by
    have hx := hw2
    unfold wfMergePage at hx
    simp only [Bool.and_eq_true] at hx
    exact ⟨hx.1.1, hx.1.2, hx.2⟩
  have hck1 : containsKey p1 "financial_data" = true := containsKey_of_getKey? h1
  have hckf1 : containsKey f1 "line_items" = true := containsKey_of_getKey? h2
  have hckf2 : containsKey f2 "line_items" = true := containsKey_of_getKey? h4
  have hm1 : mergeLineItems p1 p2
      = .ok (setKey p1 "financial_data"
          (.dict (setKey f1 "line_items" (.list (l1 ++ l2))))) := by
    simp [mergeLineItems, h1, h2, h3, h4, hck1, hckf1, hckf2, pyContains,
      asDict, asList, exceptPureOk, exceptBindOk, exceptDoOk]
  set m1 : Dict := setKey p1 "financial_data"
      (.dict (setKey f1 "line_items" (.list (l1 ++ l2)))) with hm1def
  have hne_ef : ("financial_data" : String) ≠ "extracted_fields" := by decide
  have hne_tc : ("financial_data" : String) ≠ "text_content" := by decide
  have hne_md : ("financial_data" : String) ≠ "metadata" := by decide
  have hm1ef : keyIsDictOrAbsent m1 "extracted_fields" = true := by
    unfold keyIsDictOrAbsent
    rw [hm1def, getKey?_setKey_ne _ _ _ _ hne_ef]
    exact hw1ef
  have hm1tc : keyIsStrOrAbsent m1 "text_content" = true := by
    unfold keyIsStrOrAbsent
    rw [hm1def, getKey?_setKey_ne _ _ _ _ hne_tc]
    exact hw1tc
  have hm1md : keyIsDictOrAbsent m1 "metadata" = true := by
    unfold keyIsDictOrAbsent
    rw [hm1def, getKey?_setKey_ne _ _ _ _ hne_md]
    exact hw1md
  obtain ⟨m2, hm2, hpres2⟩ := mergeExtractedFields_ok hm1ef hw2ef
  have hm2tc : keyIsStrOrAbsent m2 "text_content" = true := by
    unfold keyIsStrOrAbsent
    rw [hpres2 _ (by decide)]
    exact hm1tc
  obtain ⟨m3, hm3, hpres3⟩ := mergeTextContent_ok hm2tc hw2tc
  have hm3md : keyIsDictOrAbsent m3 "metadata" = true := by
    unfold keyIsDictOrAbsent
    rw [hpres3 _ (by decide), hpres2 _ (by decide)]
    exact hm1md
  obtain ⟨m4, hm4, hpres4⟩ := setTotalPages_ok 2 hm3md
  have hmerge : merge_page_data modelName [p1, p2] = m4 := by
    simp [merge_page_data, List.foldlM, hm1, hm2, hm3, hm4, exceptPureOk,
      exceptBindOk, exceptDoOk, exceptBindFn]
  refine ⟨setKey f1 "line_items" (.list (l1 ++ l2)), ?_, ?_, ?_⟩
  · rw [hmerge, hpres4 _ (by decide), hpres3 _ (by decide),
      hpres2 _ (by decide), hm1def]
    exact getKey?_setKey_self _ _ _
  · exact getKey?_setKey_self _ _ _
  · exact List.length_append _ _

/-- First page of the C6 witness scenario. -/
def witnessPage1 : Dict :=
  [("document_type", .str "invoice"),
   ("financial_data", .dict
     [("currency", .str "USD"),
      ("line_items", .list [.dict [("description", .str "widget")]])]),
   ("text_content", .str "page one"),
   ("metadata", .dict [("page_number", .num 1), ("total_pages", .num 2)])]

/-- Second page of the C6 witness scenario, with two line items. -/
def witnessPage2 : Dict :=
  [("financial_data", .dict
     [("line_items", .list
       [.dict [("description", .str "gadget")],
        .dict [("description", .str "bolt")]])]),
   ("extracted_fields", .dict [("note", .str "second page")]),
   ("text_content", .str "page two"),
   ("metadata", .dict [("page_number", .num 2), ("total_pages", .num 2)])]

/-- Witness for C6: merging the two concrete pages yields the 1 + 2
line items in order. -/
theorem merge_two_pages_concatenates_line_items_witness :
    ∃ f', getKey? (merge_page_data "gpt-4o-mini" [witnessPage1, witnessPage2])
            "financial_data" = some (.dict f')
        ∧ getKey? f' "line_items" = some (.list
            ([.dict [("description", JVal.str "widget")]]
              ++ [.dict [("description", JVal.str "gadget")],
                  .dict [("description", JVal.str "bolt")]]))
        ∧ ([JVal.dict [("description", JVal.str "widget")]]
              ++ [JVal.dict [("description", JVal.str "gadget")],
                  JVal.dict [("description", JVal.str "bolt")]]).length
            = [JVal.dict [("description", JVal.str "widget")]].length
              + [JVal.dict [("description", JVal.str "gadget")],
                 JVal.dict [("description", JVal.str "bolt")]].length :=
  merge_two_pages_concatenates_line_items "gpt-4o-mini" witnessPage1
    witnessPage2
    [("currency", .str "USD"),
     ("line_items", .list [.dict [("description", .str "widget")]])]
    [("line_items", .list
      [.dict [("description", .str "gadget")],
       .dict [("description", .str "bolt")]])]
    [.dict [("description", .str "widget")]]
    [.dict [("description", .str "gadget")],
     .dict [("description", .str "bolt")]]
    rfl rfl rfl rfl rfl rfl

/-- `_extract_from_image` for one page: its own `try`/`except` turns any
raised error into the page-error dict `{"error": str(e), "page": n}`;
`apiOutcome` is the parsed engine response or the exception raised while
calling the engine or parsing its output. -/
def extractFromImage (apiOutcome : Except String Dict) (pageNum : Nat) : Dict :=
  match apiOutcome with
  | .ok d => d
  | .error e => [("error", .str e), ("page", .num pageNum)]

/-- `extract_universal_data`'s view of its collaborators: `prepare` is
`_prepare_document_images` (an exception there is `Except.error`); on
success it carries, for each prepared page image, the per-page engine
outcome that `_extract_from_image` will observe. -/
structure UOracle where
  prepare : Except String (List (Except String Dict))

/-- The `try` body of `extract_universal_data`: prepare images, raise a
ValueError if none, extract each page (total, page errors absorbed), and
merge. -/
def universalBody (modelName : String) (o : UOracle) : Except String Dict := do
  let pages ← o.prepare
  if pages.isEmpty then
    throw "No images could be extracted from document"
  else
    pure (merge_page_data modelName
      (pages.enum.map (fun pr => extractFromImage pr.2 (pr.1 + 1))))

/-- `OpenAIExtractionService.extract_universal_data`: the whole body runs
under `try`/`except Exception`, whose handler returns
`_get_fallback_data(str(e))` — the function is total and never raises. -/
def extract_universal_data (modelName : String) (o : UOracle) : Dict :=
  match universalBody modelName o with
  | .ok d => d
  | .error e => get_fallback_data modelName e

/-- C9 counterexample: a single-page document whose engine call raises
`ConnectionError` makes `extract_universal_data` return the page-error
dict, which does not contain `extraction_status: 'failed'` — the failure
marker the claim promises for every caught internal exception (the
orchestrator then treats this result as a success). -/
theorem page_error_lacks_failed_marker :
    extract_universal_data "gpt-4o-mini"
        ⟨Except.ok [Except.error "ConnectionError"]⟩
        = [("error", JVal.str "ConnectionError"), ("page", JVal.num 1)]
      ∧ getKey? (extract_universal_data "gpt-4o-mini"
            ⟨Except.ok [Except.error "ConnectionError"]⟩) "extraction_status"
          = none :=
  ⟨rfl, rfl⟩

/-- C9 amended: `extract_universal_data` is total (never raises), and
whenever its body raises — image preparation failed, or no page images
were produced — the caller receives the fallback dict with the explicit
`extraction_status: 'failed'` marker and the error message. A per-page
engine exception, however, is absorbed earlier by `_extract_from_image`
into an `{error, page}` record without that marker. -/
theorem universal_body_error_yields_failed_marker
    (modelName : String) (o : UOracle) (e : String)
    (h : universalBody modelName o = .error e) :
    extract_universal_data modelName o = get_fallback_data modelName e
      ∧ getKey? (extract_universal_data modelName o) "extraction_status"
          = some (.str "failed")
      ∧ getKey? (extract_universal_data modelName o) "error"
          = some (.str e) := by
  have hx : extract_universal_data modelName o = get_fallback_data modelName e := by
    simp [extract_universal_data, h]
  refine ⟨hx, ?_, ?_⟩ <;> rw [hx] <;> rfl

/-- Witness for C9's amended theorem: PDF rasterisation raised. -/
theorem universal_body_error_yields_failed_marker_witness :
    extract_universal_data "gpt-4o-mini"
        ⟨Except.error "PDFPageCountError: unable to get page count"⟩
        = get_fallback_data "gpt-4o-mini"
            "PDFPageCountError: unable to get page count"
      ∧ getKey? (extract_universal_data "gpt-4o-mini"
            ⟨Except.error "PDFPageCountError: unable to get page count"⟩)
            "extraction_status" = some (.str "failed")
      ∧ getKey? (extract_universal_data "gpt-4o-mini"
            ⟨Except.error "PDFPageCountError: unable to get page count"⟩)
            "error"
          = some (.str "PDFPageCountError: unable to get page count") :=
  universal_body_error_yields_failed_marker "gpt-4o-mini"
    ⟨Except.error "PDFPageCountError: unable to get page count"⟩
    "PDFPageCountError: unable to get page count" rfl

/-! ## OCR dispatch — `documents/services/ocr_service.py` -/

/-- The two supported processing routes of `OCRService.extract_text`. -/
inductive OcrRoute where
  | pdf
  | image
deriving DecidableEq

namespace OCRService

/-- `OCRService.extract_text`'s dispatch on
`Path(file_path).suffix.lower()`: `.pdf` goes to
`extract_text_from_pdf`, `.jpg`/`.jpeg`/`.png` to
`extract_text_from_image` (both delegate to the external OCR engine);
everything else raises `ValueError(f"Unsupported file type: {ext}")`.
The argument is the already-lowercased suffix. -/
def extract_text (fileExt : String) : Except String OcrRoute :=
  if fileExt = ".pdf" then .ok .pdf
  else if fileExt = ".jpg" ∨ fileExt = ".jpeg" ∨ fileExt = ".png" then
    .ok .image
  else .error ("Unsupported file type: " ++ fileExt)

end OCRService

/-- The `Document.file_format` allow-list enforced by the
`doc_valid_file_format` check constraint in `documents/models.py`. -/
def documentAllowedFormats : List String :=
  ["pdf", "jpg", "jpeg", "png", "tiff", "bmp", "webp"]

/-- C10: `extract_text` raises `ValueError('Unsupported file type: ...')`
for every suffix other than `.pdf`, `.jpg`, `.jpeg`, `.png`; in
particular the tiff, bmp and webp formats permitted by the Document
format allow-list always fail on the OCR fallback path. -/
theorem unsupported_extension_raises
    (ext : String) (h : ext ∉ [".pdf", ".jpg", ".jpeg", ".png"]) :
    OCRService.extract_text ext = .error ("Unsupported file type: " ++ ext)
      ∧ ∀ f ∈ ["tiff", "bmp", "webp"],
          f ∈ documentAllowedFormats
            ∧ OCRService.extract_text ("." ++ f)
                = .error ("Unsupported file type: " ++ ("." ++ f)) := by
  constructor
  · have h1 : ext ≠ ".pdf" := by
      intro hx
      exact h (by simp [hx])
    have h2 : ¬(ext = ".jpg" ∨ ext = ".jpeg" ∨ ext = ".png") := by
      rintro (hx | hx | hx) <;> exact h (by simp [hx])
    simp only [OCRService.extract_text]
    rw [if_neg h1, if_neg h2]
  · intro f hf
    simp only [List.mem_cons, List.not_mem_nil, or_false] at hf
    rcases hf with rfl | rfl | rfl <;> exact ⟨by decide, rfl⟩

/-- Witness for C10 at the allow-listed tiff format. -/
theorem unsupported_extension_raises_witness :
    OCRService.extract_text ".tiff"
        = .error ("Unsupported file type: " ++ ".tiff")
      ∧ ∀ f ∈ ["tiff", "bmp", "webp"],
          f ∈ documentAllowedFormats
            ∧ OCRService.extract_text ("." ++ f)
                = .error ("Unsupported file type: " ++ ("." ++ f)) :=
  unsupported_extension_raises ".tiff" (by decide)

/-! ## JSON recovery — `_extract_json`, identical in
`openai_service.py` and `ai_service.py`. Python strings are modelled as
their character lists. -/

/-- Python `str.replace(pat, rep)`: scan left to right, replacing
non-overlapping occurrences. `fuel` bounds the recursion; each step
consumes at least one character for the non-empty patterns used here, so
a fuel of the text's length is always sufficient. -/
def replaceFuel (pat rep : List Char) : Nat → List Char → List Char
  | _, [] => []
  | 0, s => s
  | fuel + 1, c :: rest =>
    if leadsWith pat (c :: rest) then
      rep ++ replaceFuel pat rep fuel ((c :: rest).drop pat.length)
    else
      c :: replaceFuel pat rep fuel rest

/-- Python `str.replace` for a non-empty pattern. -/
def pyReplace (pat rep s : List Char) : List Char :=
  replaceFuel pat rep s.length s

/-- The whitespace characters removed by Python `str.strip()`. -/
def isPySpace (c : Char) : Bool :=
  c == ' ' || c == '\t' || c == '\n' || c == '\r' || c == '\x0b' || c == '\x0c'

/-- Leading whitespace removal (`lstrip`). -/
def lstripL (s : List Char) : List Char := s.dropWhile isPySpace

/-- Trailing whitespace removal (`rstrip`). -/
def rstripL (s : List Char) : List Char :=
  (s.reverse.dropWhile isPySpace).reverse

/-- Python `str.strip()`. -/
def stripL (s : List Char) : List Char := rstripL (lstripL s)

/-- The code-fence markers removed by `_extract_json`. -/
def fenceJsonPat : List Char := "```json".toList

/-- The bare code-fence marker. -/
def fencePat : List Char := "```".toList

/-- `text.replace('```json', '').replace('```', '').strip()`. -/
def cleanFences (s : List Char) : List Char :=
  stripL (pyReplace fencePat [] (pyReplace fenceJsonPat [] s))

/-- Python `cleaned_text.rfind(c)`: index of the last occurrence. -/
def rfindIdx? (c : Char) (s : List Char) : Option Nat :=
  match s.reverse.findIdx? (fun x => x == c) with
  | none => none
  | some i => some (s.length - 1 - i)

/-- `_extract_json` (the same algorithm in `OpenAIExtractionService` and
`AIExtractionService`), parameterised by the external `json.loads`:
strip fence markers, locate the first `{` and the last `}`, and parse
the enclosed slice; when `start == -1 or end <= start` parse the whole
cleaned text instead. -/
def extract_json {α : Type} (loads : List Char → α) (text : List Char) : α :=
  let cleaned := cleanFences text
  match cleaned.findIdx? (fun x => x == '{'), rfindIdx? '}' cleaned with
  | some st, some en =>
    if st < en + 1 then loads ((cleaned.drop st).take (en + 1 - st))
    else loads cleaned
  | some _, none => loads cleaned
  | none, _ => loads cleaned

/-- A single layer of code-fence wrapping: `"```json\n" + t + "\n```"`. -/
def fenceWrap (t : List Char) : List Char :=
  fenceJsonPat ++ '\n' :: (t ++ '\n' :: fencePat)

theorem leadsWith_length {pat s : List Char}
    (h : leadsWith pat s = true) : pat.length ≤ s.length := by
  induction pat generalizing s with
  | nil => simp
  | cons a as ih =>
    cases s with
    | nil => simp [leadsWith] at h
    | cons b bs =>
      simp only [leadsWith, Bool.and_eq_true] at h
      have := ih h.2
      simp only [List.length_cons]
      omega

theorem mem_of_leadsWith_cons {pat : List Char} {c : Char} {s : List Char}
    (hp : pat ≠ []) (h : leadsWith pat (c :: s) = true) : c ∈ pat := by
  cases pat with
  | nil => exact absurd rfl hp
  | cons a as =>
    simp only [leadsWith, Bool.and_eq_true, beq_iff_eq] at h
    rw [← h.1]
    exact List.mem_cons_self a as

theorem leadsWith_extend {pat x : List Char}
    (h : leadsWith pat x = true) (y : List Char) :
    leadsWith pat (x ++ y) = true := by
  induction pat generalizing x with
  | nil => rfl
  | cons a as ih =>
    cases x with
    | nil => simp [leadsWith] at h
    | cons b bs =>
      simp only [leadsWith, Bool.and_eq_true] at h
      simp only [List.cons_append, leadsWith, Bool.and_eq_true]
      exact ⟨h.1, ih h.2⟩

theorem leadsWith_append_blocker {pat : List Char} {c : Char}
    (hc : c ∉ pat) (x u : List Char)
    (h : leadsWith pat (x ++ c :: u) = true) :
    pat.length ≤ x.length ∧ leadsWith pat x = true := by
  induction pat generalizing x with
  | nil => exact ⟨Nat.zero_le _, rfl⟩
  | cons a as ih =>
    cases x with
    | nil =>
      simp only [List.nil_append, leadsWith, Bool.and_eq_true,
        beq_iff_eq] at h
      exact absurd (h.1 ▸ List.mem_cons_self a as) hc
    | cons b bs =>
      simp only [List.cons_append, leadsWith, Bool.and_eq_true] at h
      have hc2 : c ∉ as := fun hx => hc (List.mem_cons_of_mem a hx)
      have := ih hc2 bs h.2
      refine ⟨by simp only [List.length_cons]; omega, ?_⟩
      simp only [leadsWith, Bool.and_eq_true]
      exact ⟨h.1, this.2⟩

theorem leadsWith_self_append (pat s : List Char) :
    leadsWith pat (pat ++ s) = true := by
  induction pat with
  | nil => rfl
  | cons a as ih =>
    simp only [List.cons_append, leadsWith, Bool.and_eq_true]
    exact ⟨by simp, ih⟩

theorem replaceFuel_fuel_irrel {pat rep : List Char} (hp : pat ≠ []) :
    ∀ (f₁ f₂ : Nat) (s : List Char), s.length ≤ f₁ → s.length ≤ f₂ →
      replaceFuel pat rep f₁ s = replaceFuel pat rep f₂ s := by
  intro f₁
  induction f₁ with
  | zero =>
    intro f₂ s h₁ h₂
    have : s = [] := List.eq_nil_of_length_eq_zero (Nat.le_zero.mp h₁)
    subst this
    cases f₂ <;> rfl
  | succ f ih =>
    intro f₂ s h₁ h₂
    cases s with
    | nil => cases f₂ <;> rfl
    | cons c rest =>
      cases f₂ with
      | zero => simp at h₂
      | succ f₂' =>
        simp only [replaceFuel]
        cases hl : leadsWith pat (c :: rest) with
        | true =>
          simp only [eq_self_iff_true, if_true]
          have hplen : 1 ≤ pat.length := by
            cases pat with
            | nil => exact absurd rfl hp
            | cons _ _ => simp
          have hdl : ((c :: rest).drop pat.length).length ≤ f := by
            simp only [List.length_drop, List.length_cons]
            simp only [List.length_cons] at h₁
            omega
          have hdl2 : ((c :: rest).drop pat.length).length ≤ f₂' := by
            simp only [List.length_drop, List.length_cons]
            simp only [List.length_cons] at h₂
            omega
          rw [ih f₂' _ hdl hdl2]
        | false =>
          simp only [hl, Bool.false_eq_true, if_false]
          have hrl : rest.length ≤ f := by
            simp only [List.length_cons] at h₁
            omega
          have hrl2 : rest.length ≤ f₂' := by
            simp only [List.length_cons] at h₂
            omega
          rw [ih f₂' _ hrl hrl2]

theorem pyReplace_cons_no_match {pat rep : List Char} {c : Char}
    {s : List Char} (h : leadsWith pat (c :: s) = false) :
    pyReplace pat rep (c :: s) = c :: pyReplace pat rep s := by
  simp only [pyReplace, List.length_cons, replaceFuel, h,
    Bool.false_eq_true, if_false]

theorem pyReplace_cons_match {pat rep : List Char} {c : Char}
    {s : List Char} (hp : pat ≠ [])
    (h : leadsWith pat (c :: s) = true) :
    pyReplace pat rep (c :: s)
      = rep ++ pyReplace pat rep ((c :: s).drop pat.length) := by
  simp only [pyReplace, List.length_cons, replaceFuel, h, if_true]
  congr 1
  apply replaceFuel_fuel_irrel hp
  · have hplen : 1 ≤ pat.length := by
      cases pat with
      | nil => exact absurd rfl hp
      | cons _ _ => simp
    simp only [List.length_drop, List.length_cons]
    omega
  · exact le_rfl

theorem pyReplace_skip {pat rep : List Char} (hp : pat ≠ []) {c : Char}
    (hc : c ∉ pat) (s : List Char) :
    pyReplace pat rep (c :: s) = c :: pyReplace pat rep s := by
  apply pyReplace_cons_no_match
  cases hl : leadsWith pat (c :: s) with
  | false => rfl
  | true => exact absurd (mem_of_leadsWith_cons hp hl) hc

theorem pyReplace_match {pat rep s : List Char} (hp : pat ≠ [])
    (h : leadsWith pat s = true) (hs : s ≠ []) :
    pyReplace pat rep s = rep ++ pyReplace pat rep (s.drop pat.length) := by
  cases s with
  | nil => exact absurd rfl hs
  | cons c rest => exact pyReplace_cons_match hp h

theorem pyReplace_head_match {pat rep : List Char} (hp : pat ≠ [])
    (s : List Char) :
    pyReplace pat rep (pat ++ s) = rep ++ pyReplace pat rep s := by
  have hne : pat ++ s ≠ [] := by
    cases pat with
    | nil => exact absurd rfl hp
    | cons a as => simp
  rw [pyReplace_match hp (leadsWith_self_append pat s) hne, List.drop_left]

/-- A replace with a pattern that does not contain `c` distributes over
the split at `c`: no occurrence can span the blocking character. -/
theorem pyReplace_append_blocker {pat : List Char} (hp : pat ≠ [])
    {c : Char} (hc : c ∉ pat) (u : List Char) :
    ∀ t, pyReplace pat [] (t ++ c :: u)
        = pyReplace pat [] t ++ pyReplace pat [] (c :: u) := by
  suffices H : ∀ n t, t.length ≤ n →
      pyReplace pat [] (t ++ c :: u)
        = pyReplace pat [] t ++ pyReplace pat [] (c :: u) by
    intro t
    exact H t.length t le_rfl
  intro n
  induction n with
  | zero =>
    intro t ht
    have ht0 : t = [] := List.eq_nil_of_length_eq_zero (Nat.le_zero.mp ht)
    subst ht0
    simp [pyReplace, replaceFuel]
  | succ n ih =>
    intro t ht
    cases t with
    | nil => simp [pyReplace, replaceFuel]
    | cons a t' =>
      have hplen : 1 ≤ pat.length := by
        cases pat with
        | nil => exact absurd rfl hp
        | cons _ _ => simp
      cases hl : leadsWith pat (a :: (t' ++ c :: u)) with
      | true =>
        obtain ⟨hlen, hlead⟩ := leadsWith_append_blocker hc (a :: t') u hl
        show pyReplace pat [] (a :: (t' ++ c :: u))
            = pyReplace pat [] (a :: t') ++ pyReplace pat [] (c :: u)
        rw [pyReplace_match hp hl (List.cons_ne_nil _ _),
          pyReplace_match hp hlead (List.cons_ne_nil _ _),
          List.nil_append, List.nil_append]
        have hdrop : (a :: (t' ++ c :: u)).drop pat.length
            = (a :: t').drop pat.length ++ c :: u :=
          List.drop_append_of_le_length hlen
        rw [hdrop]
        apply ih
        simp only [List.length_drop, List.length_cons]
        simp only [List.length_cons] at ht
        omega
      | false =>
        have hl2 : leadsWith pat (a :: t') = false := by
          cases hx : leadsWith pat (a :: t') with
          | false => rfl
          | true =>
            have hext := leadsWith_extend hx (c :: u)
            rw [show ((a :: t') ++ c :: u) = a :: (t' ++ c :: u) from rfl]
              at hext
            rw [hext] at hl
            exact Bool.noConfusion hl
        show pyReplace pat [] (a :: (t' ++ c :: u))
            = pyReplace pat [] (a :: t') ++ pyReplace pat [] (c :: u)
        rw [pyReplace_cons_no_match hl, pyReplace_cons_no_match hl2,
          List.cons_append]
        rw [ih t' (by simp only [List.length_cons] at ht; omega)]

theorem stripL_cons_newline (s : List Char) :
    stripL ('\n' :: s) = stripL s := by
  have h : isPySpace '\n' = true := rfl
  simp [stripL, lstripL, List.dropWhile_cons, h]

theorem rstripL_append_newline (x : List Char) :
    rstripL (x ++ ['\n']) = rstripL x := by
  have h : isPySpace '\n' = true := rfl
  simp [rstripL, List.reverse_append, List.dropWhile_cons, h]

theorem stripL_append_newline (s : List Char) :
    stripL (s ++ ['\n']) = stripL s := by
  unfold stripL
  rw [show lstripL (s ++ ['\n']) = (s ++ ['\n']).dropWhile isPySpace from rfl,
    List.dropWhile_append]
  by_cases he : (s.dropWhile isPySpace).isEmpty
  · rw [if_pos he]
    have hs : lstripL s = [] := by
      simpa [lstripL, List.isEmpty_iff] using he
    rw [hs]
    have h : isPySpace '\n' = true := rfl
    simp [List.dropWhile_cons, h, rstripL]
  · rw [if_neg he]
    rw [show (s.dropWhile isPySpace : List Char) = lstripL s from rfl]
    exact rstripL_append_newline _

theorem cleanFences_fenceWrap (t : List Char) :
    cleanFences (fenceWrap t) = cleanFences t := by
  have hp1 : fenceJsonPat ≠ [] := by decide
  have hp2 : fencePat ≠ [] := by decide
  have hn1 : '\n' ∉ fenceJsonPat := by decide
  have hn2 : '\n' ∉ fencePat := by decide
  have h1 : pyReplace fenceJsonPat [] (fenceWrap t)
      = '\n' :: (pyReplace fenceJsonPat [] t ++ '\n' :: fencePat) := by
    unfold fenceWrap
    rw [pyReplace_head_match hp1, List.nil_append,
      pyReplace_skip hp1 hn1, pyReplace_append_blocker hp1 hn1 fencePat t,
      pyReplace_skip hp1 hn1,
      show pyReplace fenceJsonPat [] fencePat = fencePat from rfl]
  have h2 : pyReplace fencePat []
        ('\n' :: (pyReplace fenceJsonPat [] t ++ '\n' :: fencePat))
      = '\n' :: (pyReplace fencePat [] (pyReplace fenceJsonPat [] t)
          ++ ['\n']) := by
    rw [pyReplace_skip hp2 hn2,
      pyReplace_append_blocker hp2 hn2 fencePat _,
      pyReplace_skip hp2 hn2,
      show pyReplace fencePat [] fencePat = [] from rfl]
  unfold cleanFences
  rw [h1, h2, stripL_cons_newline, stripL_append_newline]

/-- C7: `_extract_json` is invariant under one layer of code-fence
wrapping — for every text `t` and every parser `loads`, parsing
`"```json\n" + t + "\n```"` goes through the identical cleaned text,
brace window and parser input as parsing `t` directly, so it yields the
same result; in particular it is idempotent on already-clean JSON text.
-/
theorem extract_json_fence_invariant {α : Type} (loads : List Char → α)
    (t : List Char) :
    extract_json loads (fenceWrap t) = extract_json loads t := by
  unfold extract_json
  rw [cleanFences_fenceWrap]

end AutoDocAI
